import Mathlib

/-!
Verification of the in-memory Todo repository (`src/repositories.rs`).

The repository stores `Todo` records in a `HashMap<i32, Todo>` guarded by an
`RwLock`.  We embed the map as an association list with unique keys (a
`HashMap` never holds two entries with the same key); each operation of the
`TodoRepository` trait becomes a pure state transformer on that list.  Rust
`i32` ids are embedded as `Int` together with the explicit two's-complement
cast `asI32` used at the single point where the source casts (`(store.len()
+ 1) as i32` in `create`).
-/

set_option autoImplicit false

namespace MyTodo

/-- `enum RepositoryError { NotFound(i32) }` from the source. -/
inductive RepositoryError where
  | NotFound (id : Int)
  deriving DecidableEq, Repr

/-- `struct Todo { id: i32, text: String, completed: bool }`. -/
structure Todo where
  id : Int
  text : String
  completed : Bool
  deriving DecidableEq, Repr

/-- `struct CreateTodo { text: String }`. -/
structure CreateTodo where
  text : String
  deriving DecidableEq, Repr

/-- `struct UpdateTodo { text: Option<String>, completed: Option<bool> }`. -/
structure UpdateTodo where
  text : Option String
  completed : Option Bool
  deriving DecidableEq, Repr

/-- `Todo::new(id, text)` constructs a todo with `completed: false`. -/
def Todo.new (id : Int) (text : String) : Todo :=
  { id := id, text := text, completed := false }

/-- `type TodoDates = HashMap<i32, Todo>`, embedded as an association list.
States reachable through the repository operations have pairwise distinct
keys, mirroring the `HashMap`. -/
abbrev TodoDates : Type := List (Int × Todo)

instance {ε α : Type} [DecidableEq ε] [DecidableEq α] : DecidableEq (Except ε α) := fun x y =>
  match x, y with
  | Except.error a, Except.error b =>
      if h : a = b then Decidable.isTrue (by rw [h])
      else Decidable.isFalse (fun hc => h (Except.error.inj hc))
  | Except.error _, Except.ok _ => Decidable.isFalse (fun hc => Except.noConfusion hc)
  | Except.ok _, Except.error _ => Decidable.isFalse (fun hc => Except.noConfusion hc)
  | Except.ok a, Except.ok b =>
      if h : a = b then Decidable.isTrue (by rw [h])
      else Decidable.isFalse (fun hc => h (Except.ok.inj hc))

/-- `HashMap::get(&id).cloned()`: the value stored under `k`, if any. -/
def storeGet (s : TodoDates) (k : Int) : Option Todo :=
  match s with
  | [] => none
  | p :: rest => if p.1 = k then some p.2 else storeGet rest k

/-- `HashMap::insert(k, v)`: overwrite the entry for `k` when present,
otherwise add a new entry. -/
def storeInsert (s : TodoDates) (k : Int) (v : Todo) : TodoDates :=
  match s with
  | [] => [(k, v)]
  | p :: rest => if p.1 = k then (k, v) :: rest else p :: storeInsert rest k v

/-- `HashMap::remove(&k)`: drop the entry for `k` when present. -/
def storeRemove (s : TodoDates) (k : Int) : TodoDates :=
  match s with
  | [] => []
  | p :: rest => if p.1 = k then rest else p :: storeRemove rest k

/-- `HashMap::len()`. -/
def storeLen (s : TodoDates) : Nat :=
  List.length s

/-- The keys of the map are pairwise distinct; every state of the Rust
`HashMap` satisfies this. -/
def keysNodup (s : TodoDates) : Prop :=
  List.Nodup (List.map Prod.fst s)

instance (s : TodoDates) : Decidable (keysNodup s) :=
  inferInstanceAs (Decidable (List.Nodup (List.map Prod.fst s)))

/-- The two's-complement reading of `n as i32` applied to a `usize` value
`n` (the source computes `(store.len() + 1) as i32`). -/
def asI32 (n : Nat) : Int :=
  if n % 2 ^ 32 < 2 ^ 31 then ((n % 2 ^ 32 : Nat) : Int)
  else ((n % 2 ^ 32 : Nat) : Int) - 2 ^ 32

/-- `fn create(&self, payload: CreateTodo) -> Todo`, returning the result
together with the store after the call. -/
def create (s : TodoDates) (payload : CreateTodo) : Todo × TodoDates :=
  let id := asI32 (storeLen s + 1)
  let todo := Todo.new id payload.text
  (todo, storeInsert s id todo)

/-- `fn find(&self, id: i32) -> Option<Todo>`. -/
def find (s : TodoDates) (id : Int) : Option Todo :=
  storeGet s id

/-- `fn all(&self) -> Vec<Todo>`: a copy of every stored value.
`HashMap::values()` iterates in unspecified order; the embedding returns
one arbitrary representative order (the list order of the state), so
order-sensitive conclusions must not be drawn from it — theorems below
use only its length and its multiset of elements. -/
def all (s : TodoDates) : List Todo :=
  List.map Prod.snd s

/-- `fn update(&self, id: i32, payload: UpdateTodo) -> anyhow::Result<Todo>`,
returning the result together with the store after the call.  On the error
path the `?` operator returns before the store is touched. -/
def update (s : TodoDates) (id : Int) (payload : UpdateTodo) :
    Except RepositoryError Todo × TodoDates :=
  match storeGet s id with
  | none => (Except.error (RepositoryError.NotFound id), s)
  | some todo =>
      let todo' : Todo :=
        { id := id
          text := payload.text.getD todo.text
          completed := payload.completed.getD todo.completed }
      (Except.ok todo', storeInsert s id todo')

/-- `fn delete(&self, id: i32) -> anyhow::Result<()>`: `store.remove(&id)`
runs unconditionally and yields `NotFound` when it removed nothing. -/
def delete (s : TodoDates) (id : Int) :
    Except RepositoryError Unit × TodoDates :=
  match storeGet s id with
  | none => (Except.error (RepositoryError.NotFound id), storeRemove s id)
  | some _ => (Except.ok (), storeRemove s id)

/-- `TodoRepositoryForMemory::new()` starts from `Arc::default()`: the
empty map. -/
def emptyStore : TodoDates := []

/-- Every key of the map stores a todo whose `id` field is that key. -/
def storeInv (s : TodoDates) : Prop :=
  ∀ p ∈ s, (p.2).id = p.1

instance (s : TodoDates) : Decidable (storeInv s) :=
  inferInstanceAs (Decidable (∀ p ∈ s, (p.2).id = p.1))

/-! ### Lemmas about the store primitives -/

theorem storeGet_insert_self (s : TodoDates) (k : Int) (v : Todo) :
    storeGet (storeInsert s k v) k = some v := by
  induction s with
  | nil => simp [storeInsert, storeGet]
  | cons p rest ih =>
      by_cases h : p.1 = k
      · simp [storeInsert, storeGet, h]
      · simp [storeInsert, storeGet, h, ih]

theorem storeGet_insert_ne (s : TodoDates) (k k' : Int) (v : Todo) (h : k' ≠ k) :
    storeGet (storeInsert s k v) k' = storeGet s k' := by
  have hkk : ¬ k = k' := fun he => h he.symm
  induction s with
  | nil => simp [storeInsert, storeGet, hkk]
  | cons p rest ih =>
      by_cases hp : p.1 = k
      · have hp' : ¬ p.1 = k' := by rw [hp]; exact hkk
        simp [storeInsert, storeGet, hp, hp', hkk]
      · by_cases hp' : p.1 = k'
        · simp [storeInsert, storeGet, hp, hp', h]
        · simp [storeInsert, storeGet, hp, hp', ih]

theorem storeGet_remove_ne (s : TodoDates) (k k' : Int) (h : k' ≠ k) :
    storeGet (storeRemove s k) k' = storeGet s k' := by
  induction s with
  | nil => simp [storeRemove, storeGet]
  | cons p rest ih =>
      by_cases hp : p.1 = k
      · have hkk : ¬ k = k' := fun he => h he.symm
        simp [storeRemove, storeGet, hp, hkk]
      · simp [storeRemove, storeGet, hp, ih]

theorem storeGet_eq_none_of_not_mem (s : TodoDates) (k : Int)
    (h : k ∉ List.map Prod.fst s) : storeGet s k = none := by
  induction s with
  | nil => rfl
  | cons p rest ih =>
      simp only [List.map_cons, List.mem_cons] at h
      push_neg at h
      have hp : ¬ p.1 = k := fun he => h.1 he.symm
      simp [storeGet, hp, ih h.2]

theorem storeGet_remove_self (s : TodoDates) (k : Int) (h : keysNodup s) :
    storeGet (storeRemove s k) k = none := by
  induction s with
  | nil => rfl
  | cons p rest ih =>
      rw [keysNodup, List.map_cons, List.nodup_cons] at h
      by_cases hp : p.1 = k
      · subst hp
        simp only [storeRemove, if_pos rfl]
        exact storeGet_eq_none_of_not_mem rest p.1 h.1
      · simp [storeRemove, storeGet, hp, ih h.2]

theorem storeRemove_of_get_none (s : TodoDates) (k : Int) (h : storeGet s k = none) :
    storeRemove s k = s := by
  induction s with
  | nil => rfl
  | cons p rest ih =>
      by_cases hp : p.1 = k
      · simp [storeGet, hp] at h
      · simp only [storeGet, if_neg hp] at h
        simp [storeRemove, hp, ih h]

theorem storeInsert_of_get_none (s : TodoDates) (k : Int) (v : Todo)
    (h : storeGet s k = none) : storeInsert s k v = s ++ [(k, v)] := by
  induction s with
  | nil => rfl
  | cons p rest ih =>
      by_cases hp : p.1 = k
      · simp [storeGet, hp] at h
      · simp only [storeGet, if_neg hp] at h
        simp [storeInsert, hp, ih h]

theorem mem_of_mem_storeInsert {s : TodoDates} {k : Int} {v : Todo} {p : Int × Todo}
    (h : p ∈ storeInsert s k v) : p ∈ s ∨ p = (k, v) := by
  induction s with
  | nil => simpa [storeInsert] using h
  | cons q rest ih =>
      by_cases hq : q.1 = k
      · rw [storeInsert, if_pos hq] at h
        rcases List.mem_cons.mp h with h | h
        · exact Or.inr h
        · exact Or.inl (List.mem_cons_of_mem q h)
      · rw [storeInsert, if_neg hq] at h
        rcases List.mem_cons.mp h with h | h
        · exact Or.inl (h ▸ List.mem_cons_self q rest)
        · rcases ih h with h | h
          · exact Or.inl (List.mem_cons_of_mem q h)
          · exact Or.inr h

theorem mem_of_mem_storeRemove {s : TodoDates} {k : Int} {p : Int × Todo}
    (h : p ∈ storeRemove s k) : p ∈ s := by
  induction s with
  | nil => simp [storeRemove] at h
  | cons q rest ih =>
      by_cases hq : q.1 = k
      · rw [storeRemove, if_pos hq] at h
        exact List.mem_cons_of_mem q h
      · rw [storeRemove, if_neg hq] at h
        rcases List.mem_cons.mp h with h | h
        · exact h ▸ List.mem_cons_self q rest
        · exact List.mem_cons_of_mem q (ih h)

theorem storeGet_mem {s : TodoDates} {k : Int} {v : Todo}
    (h : storeGet s k = some v) : (k, v) ∈ s := by
  induction s with
  | nil => simp [storeGet] at h
  | cons p rest ih =>
      by_cases hp : p.1 = k
      · rw [storeGet, if_pos hp] at h
        have hpv : p = (k, v) := by
          cases p
          simp_all
        rw [List.mem_cons]
        exact Or.inl hpv.symm
      · rw [storeGet, if_neg hp] at h
        exact List.mem_cons_of_mem p (ih h)

/-! ### Lemmas about the `i32` cast -/

theorem asI32_of_lt {n : Nat} (h : n < 2 ^ 31) : asI32 n = (n : Int) := by
  have h32 : n % 2 ^ 32 = n := Nat.mod_eq_of_lt (by omega)
  rw [asI32, h32, if_pos h]

theorem asI32_inj {a b : Nat} (ha1 : 1 ≤ a) (ha2 : a ≤ 2 ^ 32)
    (hb1 : 1 ≤ b) (hb2 : b ≤ 2 ^ 32) (h : asI32 a = asI32 b) : a = b := by
  rw [asI32, asI32] at h
  split_ifs at h <;> omega

/-! ### Runs of consecutive `create` calls -/

/-- The store produced by one `create` call per element of `ts`, in order,
starting from the fresh repository. -/
def createMany (ts : List String) : TodoDates :=
  List.foldl (fun s t => (create s { text := t }).snd) emptyStore ts

/-- The explicit shape of the store after creating the texts `ts` on top of
`k` already-stored items: the `i`-th text is stored under key
`asI32 (k + i + 1)`. -/
def expectedFrom (k : Nat) : List String → TodoDates
  | [] => []
  | t :: ts => (asI32 (k + 1), Todo.new (asI32 (k + 1)) t) :: expectedFrom (k + 1) ts

theorem expectedFrom_length (k : Nat) (ts : List String) :
    (expectedFrom k ts).length = ts.length := by
  induction ts generalizing k with
  | nil => rfl
  | cons t ts ih => simp [expectedFrom, ih]

theorem expectedFrom_append (k : Nat) (ts : List String) (t : String) :
    expectedFrom k (ts ++ [t]) =
      expectedFrom k ts ++
        [(asI32 (k + ts.length + 1), Todo.new (asI32 (k + ts.length + 1)) t)] := by
  induction ts generalizing k with
  | nil => simp [expectedFrom]
  | cons a as ih =>
      have harith : k + 1 + as.length + 1 = k + (a :: as).length + 1 := by
        simp only [List.length_cons]
        omega
      calc expectedFrom k ((a :: as) ++ [t])
          = (asI32 (k + 1), Todo.new (asI32 (k + 1)) a) ::
              expectedFrom (k + 1) (as ++ [t]) := rfl
        _ = (asI32 (k + 1), Todo.new (asI32 (k + 1)) a) ::
              (expectedFrom (k + 1) as ++
                [(asI32 (k + 1 + as.length + 1),
                  Todo.new (asI32 (k + 1 + as.length + 1)) t)]) := by
              rw [ih]
        _ = expectedFrom k (a :: as) ++
              [(asI32 (k + (a :: as).length + 1),
                Todo.new (asI32 (k + (a :: as).length + 1)) t)] := by
              rw [harith]
              exact rfl

theorem storeGet_expectedFrom_none (k : Nat) (ts : List String) (key : Int)
    (h : ∀ j, k + 1 ≤ j → j ≤ k + ts.length → key ≠ asI32 j) :
    storeGet (expectedFrom k ts) key = none := by
  induction ts generalizing k with
  | nil => rfl
  | cons t ts ih =>
      have hne : ¬ asI32 (k + 1) = key :=
        fun he => h (k + 1) le_rfl (by simp) he.symm
      rw [expectedFrom, storeGet, if_neg hne]
      exact ih (k + 1) (fun j hj1 hj2 => h j (by omega) (by simp; omega))

theorem createMany_append_single (ts : List String) (t : String) :
    createMany (ts ++ [t]) = (create (createMany ts) { text := t }).snd := by
  rw [createMany, List.foldl_append]
  simp only [List.foldl_cons, List.foldl_nil]
  rfl

theorem createMany_eq (ts : List String) :
    ts.length ≤ 2 ^ 32 → createMany ts = expectedFrom 0 ts := by
  induction ts using List.reverseRecOn with
  | nil => intro _; rfl
  | append_singleton ts t ih =>
      intro h
      rw [List.length_append, List.length_singleton] at h
      have hts : ts.length ≤ 2 ^ 32 := by omega
      rw [createMany_append_single, ih hts]
      rw [expectedFrom_append]
      show storeInsert (expectedFrom 0 ts) (asI32 (storeLen (expectedFrom 0 ts) + 1))
          (Todo.new (asI32 (storeLen (expectedFrom 0 ts) + 1)) t) = _
      rw [show storeLen (expectedFrom 0 ts) = ts.length from expectedFrom_length 0 ts]
      rw [storeInsert_of_get_none]
      · simp
      · apply storeGet_expectedFrom_none
        intro j hj1 hj2 heq
        have hj : ts.length + 1 = j := by
          refine asI32_inj (by omega) (by omega) (by omega) (by omega) heq
        omega

theorem expectedFrom_texts (k : Nat) (ts : List String) :
    List.map Todo.text (List.map Prod.snd (expectedFrom k ts)) = ts := by
  induction ts generalizing k with
  | nil => rfl
  | cons t ts ih => simp [expectedFrom, Todo.new, ih]

theorem expectedFrom_completed (k : Nat) (ts : List String) :
    ∀ td ∈ List.map Prod.snd (expectedFrom k ts), td.completed = false := by
  induction ts generalizing k with
  | nil =>
      intro td h
      simp [expectedFrom] at h
  | cons t ts ih =>
      intro td h
      simp only [expectedFrom, List.map_cons, List.mem_cons] at h
      rcases h with h | h
      · rw [h]
        rfl
      · exact ih (k + 1) td h

/-! ### Concrete scenario stores -/

/-- The store after creating the texts "a", "b", "c" on a fresh
repository: items with ids 1, 2, 3. -/
def demoS3 : TodoDates :=
  (create (create (create emptyStore { text := "a" }).snd { text := "b" }).snd
    { text := "c" }).snd

/-- `demoS3` after `delete 2`. -/
def demoS4 : TodoDates := (delete demoS3 2).snd

theorem storeInsert_length_of_get_some (s : TodoDates) (k : Int) (v v0 : Todo)
    (h : storeGet s k = some v0) : (storeInsert s k v).length = s.length := by
  induction s with
  | nil => simp [storeGet] at h
  | cons p rest ih =>
      by_cases hp : p.1 = k
      · simp [storeInsert, hp]
      · rw [storeGet, if_neg hp] at h
        simp [storeInsert, hp, ih h]

/-! ### Claim theorems -/

/-- C3: for every payload with text `t` and every store state, `create`
returns a todo whose `text` is `t` and whose `completed` is `false`, and a
subsequent `find` with the returned todo's id returns a value equal to the
returned todo. -/
theorem create_then_find (s : TodoDates) (p : CreateTodo) :
    (create s p).fst.text = p.text ∧
    (create s p).fst.completed = false ∧
    find (create s p).snd (create s p).fst.id = some (create s p).fst := by
  refine ⟨rfl, rfl, ?_⟩
  show storeGet
      (storeInsert s (asI32 (storeLen s + 1)) (Todo.new (asI32 (storeLen s + 1)) p.text))
      (asI32 (storeLen s + 1)) = some (Todo.new (asI32 (storeLen s + 1)) p.text)
  exact storeGet_insert_self s (asI32 (storeLen s + 1)) (Todo.new (asI32 (storeLen s + 1)) p.text)

/-- C4: on an id present in the store, `update` with only `text` present
overwrites `text` and keeps the prior `completed` (and the id), `update`
with only `completed` present overwrites `completed` and keeps the prior
`text` (and the id), and in both cases every other id maps to the same
value as before. -/
theorem update_patch_semantics (s : TodoDates) (id : Int) (t0 : Todo)
    (h : find s id = some t0) (t : String) (c : Bool) :
    (update s id { text := some t, completed := none }).fst =
        Except.ok { id := id, text := t, completed := t0.completed } ∧
    find (update s id { text := some t, completed := none }).snd id =
        some { id := id, text := t, completed := t0.completed } ∧
    (∀ k, k ≠ id →
      find (update s id { text := some t, completed := none }).snd k = find s k) ∧
    (update s id { text := none, completed := some c }).fst =
        Except.ok { id := id, text := t0.text, completed := c } ∧
    find (update s id { text := none, completed := some c }).snd id =
        some { id := id, text := t0.text, completed := c } ∧
    (∀ k, k ≠ id →
      find (update s id { text := none, completed := some c }).snd k = find s k) := by
  have hg : storeGet s id = some t0 := h
  refine ⟨?_, ?_, ?_, ?_, ?_, ?_⟩
  · simp [update, hg]
  · simp only [update, hg, find, Option.getD_some, Option.getD_none]
    exact storeGet_insert_self s id _
  · intro k hk
    simp only [update, hg, find]
    exact storeGet_insert_ne s id k _ hk
  · simp [update, hg]
  · simp only [update, hg, find, Option.getD_some, Option.getD_none]
    exact storeGet_insert_self s id _
  · intro k hk
    simp only [update, hg, find]
    exact storeGet_insert_ne s id k _ hk

/-- C5: on an id absent from the store, `update` and `delete` both fail
with `NotFound` carrying exactly that id, and both leave the store state
equal to what it was before the call. -/
theorem update_delete_notfound (s : TodoDates) (id : Int) (p : UpdateTodo)
    (h : find s id = none) :
    (update s id p).fst = Except.error (RepositoryError.NotFound id) ∧
    (update s id p).snd = s ∧
    (delete s id).fst = Except.error (RepositoryError.NotFound id) ∧
    (delete s id).snd = s := by
  have hg : storeGet s id = none := h
  refine ⟨?_, ?_, ?_, ?_⟩
  · simp [update, hg]
  · simp [update, hg]
  · simp [delete, hg]
  · simp only [delete, hg]
    exact storeRemove_of_get_none s id hg

/-- C6: on an id present in the store, `delete` succeeds; afterwards
`find` on that id returns `none` and a second `delete` on that id fails
with `NotFound` carrying that id. -/
theorem delete_then_absent (s : TodoDates) (id : Int) (t0 : Todo)
    (hnd : keysNodup s) (h : find s id = some t0) :
    (delete s id).fst = Except.ok () ∧
    find (delete s id).snd id = none ∧
    (delete (delete s id).snd id).fst = Except.error (RepositoryError.NotFound id) := by
  have hg : storeGet s id = some t0 := h
  have hrm : storeGet (storeRemove s id) id = none := storeGet_remove_self s id hnd
  refine ⟨?_, ?_, ?_⟩
  · simp [delete, hg]
  · simp only [delete, hg, find]
    exact hrm
  · simp only [delete, hg]
    simp [delete, hrm]

/-- The store after `2 ^ 31 - 1` consecutive `create` calls: the smallest
store on which the `(len() + 1) as i32` computation wraps. -/
def bigStore : TodoDates :=
  expectedFrom 0 (List.replicate (2 ^ 31 - 1) "")

/-- C1 (counterexample): on a store of `2 ^ 31 - 1` items the id assigned
by `create` is the wrapped value `-2 ^ 31`, not `(number of stored items)
+ 1`, because the source casts `store.len() + 1` to `i32`. -/
theorem create_id_wraps_on_big_store :
    (create bigStore { text := "x" }).fst.id ≠ (storeLen bigStore : Int) + 1 := by
  have hlen : storeLen bigStore = 2 ^ 31 - 1 := by
    show (expectedFrom 0 (List.replicate (2 ^ 31 - 1) "")).length = 2 ^ 31 - 1
    rw [expectedFrom_length, List.length_replicate]
  have h1 : (create bigStore { text := "x" }).fst.id = asI32 (storeLen bigStore + 1) := by
    simp only [create, Todo.new]
  rw [h1, hlen]
  rw [show (2 : Nat) ^ 31 - 1 + 1 = 2 ^ 31 from by norm_num]
  rw [asI32]
  norm_num

/-- C1 (amended): whenever `(number of stored items) + 1` fits in `i32`
(below `2 ^ 31`), `create` assigns the new item the id
`(number of stored items) + 1`; in particular the first create on the
empty store returns id 1, and after creating three items (ids 1, 2, 3)
and deleting id 2, a subsequent create assigns id 3. -/
theorem create_id_eq_len_succ :
    (∀ (s : TodoDates) (p : CreateTodo), storeLen s + 1 < 2 ^ 31 →
      (create s p).fst.id = (storeLen s : Int) + 1) ∧
    (∀ p : CreateTodo, (create emptyStore p).fst.id = 1) ∧
    (∀ p1 p2 p3 p4 : CreateTodo,
      (create (delete
          (create (create (create emptyStore p1).snd p2).snd p3).snd 2).snd p4).fst.id = 3) := by
  refine ⟨?_, ?_, ?_⟩
  · intro s p h
    show asI32 (storeLen s + 1) = (storeLen s : Int) + 1
    rw [asI32_of_lt h]
    push_cast
    ring
  · intro p
    exact rfl
  · intro p1 p2 p3 p4
    exact rfl

/-- C2: the code violates the claimed invariant that an id, once assigned
to a created item, is never reassigned: after creating "a", "b", "c"
(ids 1, 2, 3) and deleting id 2, the next `create` assigns id 3 again,
overwriting the stored item that already had id 3. -/
theorem id_reused_after_delete :
    storeGet demoS3 3 = some (Todo.new 3 "c") ∧
    (create demoS4 { text := "d" }).fst.id = 3 ∧
    storeGet (create demoS4 { text := "d" }).snd 3 = some (Todo.new 3 "d") :=
  ⟨rfl, rfl, rfl⟩

/-- C7 (counterexample): after `2 ^ 32 + 1` creates on a fresh store,
`all()` does not return `2 ^ 32 + 1` items: the `i32` id space is
exhausted, the `(2 ^ 32 + 1)`-th create wraps back to id 1 and overwrites
the item stored under id 1. -/
theorem all_misses_item_after_exhaustion :
    (all (createMany (List.replicate (2 ^ 32 + 1) ""))).length ≠
      (List.replicate (2 ^ 32 + 1) "").length := by
  have hsplit : List.replicate (2 ^ 32 + 1) "" = List.replicate (2 ^ 32) "" ++ [""] :=
    List.replicate_succ' (2 ^ 32) ""
  have hmany : createMany (List.replicate (2 ^ 32 + 1) "") =
      (create (expectedFrom 0 (List.replicate (2 ^ 32) "")) { text := "" }).snd := by
    rw [hsplit, createMany_append_single]
    rw [createMany_eq _ (by rw [List.length_replicate])]
  have hlen0 : storeLen (expectedFrom 0 (List.replicate (2 ^ 32) "")) = 2 ^ 32 := by
    show (expectedFrom 0 (List.replicate (2 ^ 32) "")).length = 2 ^ 32
    rw [expectedFrom_length, List.length_replicate]
  have hid : asI32 (2 ^ 32 + 1) = asI32 (0 + 1) := by
    rw [asI32, asI32]
    norm_num
  have hget : storeGet (expectedFrom 0 (List.replicate (2 ^ 32) "")) (asI32 (0 + 1)) =
      some (Todo.new (asI32 (0 + 1)) "") := by
    rw [show (2 : Nat) ^ 32 = (2 ^ 32 - 1) + 1 from by norm_num, List.replicate_succ]
    rw [expectedFrom, storeGet, if_pos rfl]
  have hsnd : (create (expectedFrom 0 (List.replicate (2 ^ 32) "")) { text := "" }).snd =
      storeInsert (expectedFrom 0 (List.replicate (2 ^ 32) ""))
        (asI32 (storeLen (expectedFrom 0 (List.replicate (2 ^ 32) "")) + 1))
        (Todo.new (asI32 (storeLen (expectedFrom 0 (List.replicate (2 ^ 32) "")) + 1)) "") := by
    simp only [create]
  have hlen : (all (createMany (List.replicate (2 ^ 32 + 1) ""))).length = 2 ^ 32 := by
    rw [hmany, hsnd, hlen0, hid]
    show (List.map Prod.snd (storeInsert (expectedFrom 0 (List.replicate (2 ^ 32) ""))
        (asI32 (0 + 1)) (Todo.new (asI32 (0 + 1)) ""))).length = 2 ^ 32
    rw [List.length_map]
    rw [storeInsert_length_of_get_some _ _ _ _ hget]
    rw [expectedFrom_length, List.length_replicate]
  rw [hlen, List.length_replicate]
  norm_num

/-- C7 (amended): for every list of texts `ts` with at most `2 ^ 32`
elements (so that no id collision has occurred yet), running one `create`
per text on a fresh store and then `all()` yields exactly `ts.length`
items which correspond, as a multiset (order-independent), one-to-one to
the create calls: the multiset of returned texts is exactly the multiset
of payload texts, and every returned item has `completed = false`. -/
theorem all_after_creates (ts : List String) (h : ts.length ≤ 2 ^ 32) :
    (all (createMany ts)).length = ts.length ∧
    ((all (createMany ts)).map Todo.text).Perm ts ∧
    ∀ td ∈ all (createMany ts), td.completed = false := by
  rw [createMany_eq ts h]
  refine ⟨?_, ?_, ?_⟩
  · show (List.map Prod.snd (expectedFrom 0 ts)).length = ts.length
    rw [List.length_map, expectedFrom_length]
  · show (List.map Todo.text (List.map Prod.snd (expectedFrom 0 ts))).Perm ts
    rw [expectedFrom_texts]
  · intro td htd
    exact expectedFrom_completed 0 ts td htd

/-- C8: the only error value of the repository is `NotFound` carrying an
id; `update` and `delete` either succeed or fail with `NotFound` of the
requested id; `create` always returns a todo and a new store, and `find`
and `all` return normal (possibly absent or empty) results. -/
theorem only_notfound_errors :
    (∀ e : RepositoryError, ∃ i, e = RepositoryError.NotFound i) ∧
    (∀ (s : TodoDates) (id : Int) (p : UpdateTodo),
      (update s id p).fst = Except.error (RepositoryError.NotFound id) ∨
      ∃ t, (update s id p).fst = Except.ok t) ∧
    (∀ (s : TodoDates) (id : Int),
      (delete s id).fst = Except.error (RepositoryError.NotFound id) ∨
      (delete s id).fst = Except.ok ()) ∧
    (∀ (s : TodoDates) (p : CreateTodo),
      ∃ (t : Todo) (s2 : TodoDates), create s p = (t, s2)) ∧
    (∀ (s : TodoDates) (id : Int), find s id = none ∨ ∃ t, find s id = some t) ∧
    (∀ s : TodoDates, ∃ l : List Todo, all s = l) := by
  refine ⟨?_, ?_, ?_, ?_, ?_, ?_⟩
  · intro e
    cases e with
    | NotFound i => exact ⟨i, rfl⟩
  · intro s id p
    cases hg : storeGet s id with
    | none =>
        left
        simp [update, hg]
    | some t0 =>
        right
        exact ⟨{ id := id, text := p.text.getD t0.text,
                 completed := p.completed.getD t0.completed }, by simp [update, hg]⟩
  · intro s id
    cases hg : storeGet s id with
    | none =>
        left
        simp [delete, hg]
    | some t0 =>
        right
        simp [delete, hg]
  · intro s p
    exact ⟨_, _, rfl⟩
  · intro s id
    cases hf : find s id with
    | none => exact Or.inl rfl
    | some t => exact Or.inr ⟨t, rfl⟩
  · intro s
    exact ⟨_, rfl⟩

/-- C9: every operation preserves the invariant that the todo stored
under key `k` has its `id` field equal to `k` (the empty store satisfies
it); consequently `find id` only returns items whose `id` equals the
requested id, and a successful `update id` returns an item whose
`id` equals the requested id. -/
theorem key_id_invariant :
    storeInv emptyStore ∧
    (∀ (s : TodoDates) (p : CreateTodo), storeInv s → storeInv (create s p).snd) ∧
    (∀ (s : TodoDates) (id : Int) (p : UpdateTodo),
      storeInv s → storeInv (update s id p).snd) ∧
    (∀ (s : TodoDates) (id : Int), storeInv s → storeInv (delete s id).snd) ∧
    (∀ (s : TodoDates) (id : Int) (t : Todo),
      storeInv s → find s id = some t → t.id = id) ∧
    (∀ (s : TodoDates) (id : Int) (p : UpdateTodo) (t : Todo),
      (update s id p).fst = Except.ok t → t.id = id) := by
  refine ⟨?_, ?_, ?_, ?_, ?_, ?_⟩
  · intro q hq
    simp [emptyStore] at hq
  · intro s p hinv q hq
    rcases mem_of_mem_storeInsert hq with h | h
    · exact hinv q h
    · rw [h]
      exact rfl
  · intro s id p hinv q hq
    cases hg : storeGet s id with
    | none =>
        have hs : (update s id p).snd = s := by simp [update, hg]
        rw [hs] at hq
        exact hinv q hq
    | some t0 =>
        have hs : (update s id p).snd = storeInsert s id
            { id := id, text := p.text.getD t0.text,
              completed := p.completed.getD t0.completed } := by
          simp [update, hg]
        rw [hs] at hq
        rcases mem_of_mem_storeInsert hq with h | h
        · exact hinv q h
        · rw [h]
  · intro s id hinv q hq
    have hs : (delete s id).snd = storeRemove s id := by
      cases hg : storeGet s id <;> simp [delete, hg]
    rw [hs] at hq
    exact hinv q (mem_of_mem_storeRemove hq)
  · intro s id t hinv hf
    exact hinv (id, t) (storeGet_mem hf)
  · intro s id p t hok
    cases hg : storeGet s id with
    | none => simp [update, hg] at hok
    | some t0 =>
        have hf : (update s id p).fst = Except.ok
            { id := id, text := p.text.getD t0.text,
              completed := p.completed.getD t0.completed } := by
          simp [update, hg]
        rw [hf] at hok
        rw [← Except.ok.inj hok]

/-! ### Witnesses -/

theorem create_id_eq_len_succ_witness :
    (create demoS4 { text := "d" }).fst.id = (storeLen demoS4 : Int) + 1 :=
  create_id_eq_len_succ.1 demoS4 { text := "d" } (by decide)

theorem update_patch_semantics_witness :
    (update demoS3 1 { text := some "z", completed := none }).fst =
      Except.ok { id := 1, text := "z", completed := false } ∧
    (update demoS3 1 { text := none, completed := some true }).fst =
      Except.ok { id := 1, text := "a", completed := true } ∧
    find (update demoS3 1 { text := some "z", completed := none }).snd 2 =
      find demoS3 2 :=
  ⟨(update_patch_semantics demoS3 1 (Todo.new 1 "a") rfl "z" true).1,
   (update_patch_semantics demoS3 1 (Todo.new 1 "a") rfl "z" true).2.2.2.1,
   (update_patch_semantics demoS3 1 (Todo.new 1 "a") rfl "z" true).2.2.1 2 (by decide)⟩

theorem update_delete_notfound_witness :
    (update demoS3 42 { text := none, completed := none }).fst =
      Except.error (RepositoryError.NotFound 42) ∧
    (delete demoS3 42).snd = demoS3 :=
  ⟨(update_delete_notfound demoS3 42 { text := none, completed := none } rfl).1,
   (update_delete_notfound demoS3 42 { text := none, completed := none } rfl).2.2.2⟩

theorem delete_then_absent_witness :
    (delete demoS3 2).fst = Except.ok () ∧
    find (delete demoS3 2).snd 2 = none ∧
    (delete (delete demoS3 2).snd 2).fst = Except.error (RepositoryError.NotFound 2) :=
  delete_then_absent demoS3 2 (Todo.new 2 "b") (by decide) rfl

theorem all_after_creates_witness :
    (all (createMany ["a", "b"])).length = 2 ∧
    ((all (createMany ["a", "b"])).map Todo.text).Perm ["a", "b"] :=
  ⟨(all_after_creates ["a", "b"] (by norm_num)).1,
   (all_after_creates ["a", "b"] (by norm_num)).2.1⟩

theorem key_id_invariant_witness :
    storeInv (create demoS3 { text := "d" }).snd ∧ (Todo.new 2 "b").id = 2 :=
  ⟨key_id_invariant.2.1 demoS3 { text := "d" } (by decide),
   key_id_invariant.2.2.2.2.1 demoS3 2 (Todo.new 2 "b") (by decide) rfl⟩

end MyTodo
